import Mathlib

/-!
Verification of the `go-hmacauth` Python client (`src/clients/requests.py`).

The source defines a single class `HMACAuth(AuthBase)` that, when called on an
outgoing request, builds a canonical string-to-sign from the request's method,
host (netloc), path-and-query and a freshly generated timestamp, optionally
appends allow-listed header values, signs the string with HMAC-SHA256, and
stores `APIKey=...,Signature=...,Timestamp=...` in the request's
`Authorization` header.

Bytes are modelled as `List Nat` (each entry < 256).  The cryptographic
primitives the source calls (`hashlib.sha256`, `hmac`, `base64.b64encode`)
are external library collaborators; they are modelled here by executable
implementations of the standard algorithms (FIPS 180-4 SHA-256, RFC 2104
HMAC, RFC 4648 base64 with padding), which is the behaviour the spec
prescribes for them.
-/

/-- Truncate a natural number to a 32-bit word, as all SHA-256 word
operations are modulo 2^32. -/
def mod32 (x : Nat) : Nat := x % 4294967296

/-- Right rotation of a 32-bit word by `n` bits. -/
def rotr (n x : Nat) : Nat := mod32 ((x >>> n) ||| (x <<< (32 - n)))

/-- Bitwise complement of a 32-bit word. -/
def compl32 (x : Nat) : Nat := x ^^^ 4294967295

/-- SHA-256 `Ch` function. -/
def shaCh (x y z : Nat) : Nat := (x &&& y) ^^^ (compl32 x &&& z)

/-- SHA-256 `Maj` function. -/
def shaMaj (x y z : Nat) : Nat := (x &&& y) ^^^ (x &&& z) ^^^ (y &&& z)

/-- SHA-256 big sigma-0. -/
def bsig0 (x : Nat) : Nat := rotr 2 x ^^^ rotr 13 x ^^^ rotr 22 x

/-- SHA-256 big sigma-1. -/
def bsig1 (x : Nat) : Nat := rotr 6 x ^^^ rotr 11 x ^^^ rotr 25 x

/-- SHA-256 small sigma-0. -/
def ssig0 (x : Nat) : Nat := rotr 7 x ^^^ rotr 18 x ^^^ (x >>> 3)

/-- SHA-256 small sigma-1. -/
def ssig1 (x : Nat) : Nat := rotr 17 x ^^^ rotr 19 x ^^^ (x >>> 10)

/-- The 64 SHA-256 round constants. -/
def shaK : List Nat :=
  [1116352408, 1899447441, 3049323471, 3921009573, 961987163, 1508970993,
   2453635748, 2870763221, 3624381080, 310598401, 607225278, 1426881987,
   1925078388, 2162078206, 2614888103, 3248222580, 3835390401, 4022224774,
   264347078, 604807628, 770255983, 1249150122, 1555081692, 1996064986,
   2554220882, 2821834349, 2952996808, 3210313671, 3336571891, 3584528711,
   113926993, 338241895, 666307205, 773529912, 1294757372, 1396182291,
   1695183700, 1986661051, 2177026350, 2456956037, 2730485921, 2820302411,
   3259730800, 3345764771, 3516065817, 3600352804, 4094571909, 275423344,
   430227734, 506948616, 659060556, 883997877, 958139571, 1322822218,
   1537002063, 1747873779, 1955562222, 2024104815, 2227730452, 2361852424,
   2428436474, 2756734187, 3204031479, 3329325298]

/-- The SHA-256 working state: eight 32-bit words. -/
structure Hash8 where
  a : Nat
  b : Nat
  c : Nat
  d : Nat
  e : Nat
  f : Nat
  g : Nat
  h : Nat
deriving Repr, DecidableEq

/-- The SHA-256 initial hash value. -/
def shaH0 : Hash8 :=
  ⟨1779033703, 3144134277, 1013904242, 2773480762,
   1359893119, 2600822924, 528734635, 1541459225⟩

/-- One SHA-256 compression round with round constant `ki` and schedule word `wi`. -/
def shaRound (st : Hash8) (ki wi : Nat) : Hash8 :=
  let t1 := mod32 (st.h + bsig1 st.e + shaCh st.e st.f st.g + ki + wi)
  let t2 := mod32 (bsig0 st.a + shaMaj st.a st.b st.c)
  ⟨mod32 (t1 + t2), st.a, st.b, st.c, mod32 (st.d + t1), st.e, st.f, st.g⟩

/-- Big-endian 4-byte conversion of a 32-bit word. -/
def toBE4 (n : Nat) : List Nat :=
  [(n >>> 24) % 256, (n >>> 16) % 256, (n >>> 8) % 256, n % 256]

/-- Big-endian 8-byte conversion of a 64-bit length field. -/
def toBE8 (n : Nat) : List Nat :=
  [(n >>> 56) % 256, (n >>> 48) % 256, (n >>> 40) % 256, (n >>> 32) % 256,
   (n >>> 24) % 256, (n >>> 16) % 256, (n >>> 8) % 256, n % 256]

/-- Group bytes in fours into big-endian 32-bit words (dropping a ragged tail,
which never occurs on 64-byte blocks). -/
def bytesToWords : List Nat → List Nat
  | a :: b :: c :: d :: rest => (((a <<< 8 ||| b) <<< 8 ||| c) <<< 8 ||| d) :: bytesToWords rest
  | _ => []

/-- Extend a 16-word block schedule by `n` more words per the SHA-256 recurrence. -/
def extendSchedule (ws : List Nat) : Nat → List Nat
  | 0 => ws
  | n + 1 =>
    let i := ws.length
    let w := mod32 (ssig1 (ws.getD (i - 2) 0) + ws.getD (i - 7) 0 +
                    ssig0 (ws.getD (i - 15) 0) + ws.getD (i - 16) 0)
    extendSchedule (ws ++ [w]) n

/-- The full 64-word message schedule of a 64-byte block. -/
def schedule (block : List Nat) : List Nat :=
  extendSchedule (bytesToWords block) 48

/-- Compress one 64-byte block into the running hash state. -/
def compressBlock (h : Hash8) (block : List Nat) : Hash8 :=
  let st := (shaK.zip (schedule block)).foldl (fun s p => shaRound s p.1 p.2) h
  ⟨mod32 (h.a + st.a), mod32 (h.b + st.b), mod32 (h.c + st.c), mod32 (h.d + st.d),
   mod32 (h.e + st.e), mod32 (h.f + st.f), mod32 (h.g + st.g), mod32 (h.h + st.h)⟩

/-- Split a byte string into successive 64-byte chunks. -/
def chunks64 (l : List Nat) : List (List Nat) :=
  if h : l = [] then []
  else
    have : (l.drop 64).length < l.length := by
      cases l with
      | nil => exact absurd rfl h
      | cons x xs => simp [List.length_drop]; omega
    l.take 64 :: chunks64 (l.drop 64)
termination_by l.length

/-- SHA-256 padding: append `0x80`, zeros to 56 mod 64, then the 64-bit
big-endian bit length. -/
def shaPad (msg : List Nat) : List Nat :=
  msg ++ 0x80 :: List.replicate ((119 - msg.length % 64) % 64) 0 ++ toBE8 (8 * msg.length)

/-- SHA-256 of a byte string (FIPS 180-4), producing the 32-byte digest. -/
def sha256 (msg : List Nat) : List Nat :=
  let fin := (chunks64 (shaPad msg)).foldl compressBlock shaH0
  toBE4 fin.a ++ toBE4 fin.b ++ toBE4 fin.c ++ toBE4 fin.d ++
  toBE4 fin.e ++ toBE4 fin.f ++ toBE4 fin.g ++ toBE4 fin.h

/-- HMAC-SHA256 (RFC 2104) with a 64-byte block size, modelling Python's
`hmac.new(key, msg, hashlib.sha256).digest()`. -/
def hmacSha256 (key msg : List Nat) : List Nat :=
  let k0 := if 64 < key.length then sha256 key else key
  let k1 := k0 ++ List.replicate (64 - k0.length) 0
  let ipadKey := k1.map (fun b => b ^^^ 0x36)
  let opadKey := k1.map (fun b => b ^^^ 0x5c)
  sha256 (opadKey ++ sha256 (ipadKey ++ msg))

/-- The base64 alphabet of RFC 4648. -/
def b64Alphabet : List Char :=
  "ABCDEFGHIJKLMNOPQRSTUVWXYZabcdefghijklmnopqrstuvwxyz0123456789+/".toList

/-- The base64 character for a 6-bit value. -/
def b64Char (n : Nat) : Char := b64Alphabet.getD n 'A'

/-- Standard padded base64 encoding of a byte string, three bytes at a time. -/
def b64encodeList : List Nat → List Char
  | [] => []
  | [a] => [b64Char (a >>> 2), b64Char ((a % 4) <<< 4), '=', '=']
  | [a, b] => [b64Char (a >>> 2), b64Char ((a % 4) <<< 4 ||| (b >>> 4)),
               b64Char ((b % 16) <<< 2), '=']
  | a :: b :: c :: rest =>
      b64Char (a >>> 2) :: b64Char ((a % 4) <<< 4 ||| (b >>> 4)) ::
      b64Char ((b % 16) <<< 2 ||| (c >>> 6)) :: b64Char (c % 64) :: b64encodeList rest

/-- Standard padded base64 encoding, modelling Python's `base64.b64encode`. -/
def b64encode (bs : List Nat) : String := String.mk (b64encodeList bs)

/-- UTF-8 bytes of a string: in the Python 2 source the string-to-sign is a
byte string fed directly to `hmac.new`. -/
def utf8Bytes (s : String) : List Nat := s.toUTF8.toList.map UInt8.toNat

/-- A wall-clock instant as produced by `datetime.utcnow()`:
calendar fields plus a microsecond component. -/
structure DateTime where
  year : Nat
  month : Nat
  day : Nat
  hour : Nat
  minute : Nat
  second : Nat
  microsecond : Nat
deriving Repr, DecidableEq

/-- Decimal rendering of `n` left-padded with zeros to width `w`,
as Python's `%0wd` formatting of a natural number. -/
def padDec (w n : Nat) : String :=
  String.mk (List.replicate (w - (Nat.repr n).length) '0') ++ Nat.repr n

/-- Python 2 `datetime.isoformat()`: `YYYY-MM-DDTHH:MM:SS` followed by
`.mmmmmm` only when the microsecond component is nonzero. -/
def DateTime.isoformat (d : DateTime) : String :=
  padDec 4 d.year ++ "-" ++ padDec 2 d.month ++ "-" ++ padDec 2 d.day ++ "T" ++
  padDec 2 d.hour ++ ":" ++ padDec 2 d.minute ++ ":" ++ padDec 2 d.second ++
  (if d.microsecond = 0 then "" else "." ++ padDec 6 d.microsecond)

/-- The timestamp the source generates at line 31:
`datetime.utcnow().isoformat() + "-00:00"`, with the instant returned by the
clock passed in explicitly. -/
def timestampOf (d : DateTime) : String := d.isoformat ++ "-00:00"

/-- The outgoing request as the signer consumes it (spec section 6): the
method, the netloc that `urlparse(r.url)` yields, the `path_url`
(path plus query) the prepared request exposes, the body, and a
name-to-value header lookup. -/
structure Request where
  method : String
  host : String
  path_url : String
  body : String
  headers : List (String × String)
deriving Repr, DecidableEq

/-- Dict-style assignment on the header map: overwrite the value at a present
key, otherwise add the binding at the end. -/
def setHeader (hs : List (String × String)) (k v : String) : List (String × String) :=
  if hs.any (fun p => p.1 == k) then hs.map (fun p => if p.1 == k then (k, v) else p)
  else hs ++ [(k, v)]

/-- The signer's configuration: `__init__` stores the API key, the secret key
and the allow-list. -/
structure HMACAuth where
  api_key : String
  secret_key : List Nat
  required_headers : Option (List String)
deriving Repr, DecidableEq

/-- Lexicographic comparison of character lists by code point, the order in
which Python compares strings. -/
def charListLe : List Char → List Char → Bool
  | [], _ => true
  | _ :: _, [] => false
  | a :: as, b :: bs =>
      if a.toNat < b.toNat then true
      else if b.toNat < a.toNat then false
      else charListLe as bs

/-- String comparison: lexicographic on the underlying characters. -/
def strLe (a b : String) : Prop := charListLe a.data b.data = true

instance : DecidableRel strLe := fun a b => instDecidableEqBool (charListLe a.data b.data) true

/-- Python's `sorted` on strings: ascending lexicographic order (insertion
sort; for the total order on strings any sorting algorithm yields this same
unique sorted permutation). -/
def sortStrings (l : List String) : List String :=
  List.insertionSort strLe l

/-- `HMACAuth.__init__`: keeps the keys and stores `sorted(required_headers)`
when an allow-list is supplied, `None` otherwise. -/
def HMACAuth.init (api_key : String) (secret_key : List Nat)
    (required_headers : Option (List String)) : HMACAuth :=
  ⟨api_key, secret_key, required_headers.map sortStrings⟩

/-- The `_STRING_TO_SIGN` template applied to its four fields: each of
method, host, uri and timestamp followed by a newline. -/
def stringToSignFmt (method host uri timestamp : String) : String :=
  method ++ "\n" ++ host ++ "\n" ++ uri ++ "\n" ++ timestamp ++ "\n"

/-- The `_AUTH_HEADER` template applied to its three fields. -/
def authHeaderFmt (api_key sig timestamp : String) : String :=
  "APIKey=" ++ api_key ++ ",Signature=" ++ sig ++ ",Timestamp=" ++ timestamp

/-- The string-to-sign built in `__call__` (lines 33-44): the four-line base
string, and, when `self.required_headers` is truthy (a non-empty list), the
values of the allow-listed headers present in the request joined with
newlines.  The comprehension guards each lookup with `h in r.headers`, so an
absent name is skipped rather than raising `KeyError`;  here the guarded
lookup is the total `List.lookup` composed through `filterMap`. -/
def strToSignOf (a : HMACAuth) (r : Request) (timestamp : String) : String :=
  let base := stringToSignFmt r.method r.host r.path_url timestamp
  match a.required_headers with
  | none => base
  | some hs =>
      if hs.isEmpty then base
      else base ++ String.intercalate "\n" (hs.filterMap (fun h => r.headers.lookup h))

/-- The base64-encoded HMAC-SHA256 signature of the string-to-sign
(lines 46-47). -/
def signatureOf (a : HMACAuth) (r : Request) (timestamp : String) : String :=
  b64encode (hmacSha256 a.secret_key (utf8Bytes (strToSignOf a r timestamp)))

/-- The `Authorization` header value assembled at lines 49-53. -/
def authValueOf (a : HMACAuth) (r : Request) (d : DateTime) : String :=
  authHeaderFmt a.api_key (signatureOf a r (timestampOf d)) (timestampOf d)

/-- `HMACAuth.__call__`: with the clock's instant `d` passed in explicitly,
computes the timestamp, the string-to-sign and the signature, stores the
assembled value in the request's `Authorization` header, and returns the
request. -/
def HMACAuth.call (a : HMACAuth) (r : Request) (d : DateTime) : Request :=
  { r with headers := setHeader r.headers "Authorization" (authValueOf a r d) }

/-- The per-call SigningContext of the spec's data model: the four scalar
fields and the selected header values. -/
structure SigningContext where
  method : String
  host : String
  path_and_query : String
  timestamp : String
  selected_header_values : List String
deriving Repr, DecidableEq

/-- The SigningContext a signer and request give rise to. -/
def ctxOf (a : HMACAuth) (r : Request) (timestamp : String) : SigningContext :=
  ⟨r.method, r.host, r.path_url, timestamp,
   match a.required_headers with
   | none => []
   | some hs => hs.filterMap (fun h => r.headers.lookup h)⟩

/-- The string-to-sign as a function of the SigningContext alone. -/
def stsOfCtx (c : SigningContext) : String :=
  stringToSignFmt c.method c.host c.path_and_query c.timestamp ++
  String.intercalate "\n" c.selected_header_values

/-! ### Helper lemmas -/

theorem sha256_length (msg : List Nat) : (sha256 msg).length = 32 := by
  simp [sha256, toBE4]

theorem hmacSha256_length (key msg : List Nat) : (hmacSha256 key msg).length = 32 := by
  simp [hmacSha256, sha256_length]

theorem b64Char_mem (n : Nat) : b64Char n ∈ b64Alphabet := by
  unfold b64Char List.getD
  rcases h : b64Alphabet.get? n with _ | c
  · decide
  · simpa using List.get?_mem h

theorem b64encodeList_mem :
    ∀ (bs : List Nat) (c : Char), c ∈ b64encodeList bs → c ∈ b64Alphabet ∨ c = '='
  | [], c, hc => by simp [b64encodeList] at hc
  | [a], c, hc => by
      simp [b64encodeList] at hc
      rcases hc with h | h | h
      · exact Or.inl (h ▸ b64Char_mem _)
      · exact Or.inl (h ▸ b64Char_mem _)
      · exact Or.inr h
  | [a, b], c, hc => by
      simp [b64encodeList] at hc
      rcases hc with h | h | h | h
      · exact Or.inl (h ▸ b64Char_mem _)
      · exact Or.inl (h ▸ b64Char_mem _)
      · exact Or.inl (h ▸ b64Char_mem _)
      · exact Or.inr h
  | a :: b :: c2 :: rest, c, hc => by
      simp [b64encodeList] at hc
      rcases hc with h | h | h | h | h
      · exact Or.inl (h ▸ b64Char_mem _)
      · exact Or.inl (h ▸ b64Char_mem _)
      · exact Or.inl (h ▸ b64Char_mem _)
      · exact Or.inl (h ▸ b64Char_mem _)
      · exact b64encodeList_mem rest c h

/-- A string contains no newline character. -/
def noNL (s : String) : Prop := ∀ c ∈ s.data, c ≠ '\n'

instance (s : String) : Decidable (noNL s) := by
  unfold noNL; infer_instance

theorem noNL_append {s t : String} (hs : noNL s) (ht : noNL t) : noNL (s ++ t) := by
  intro c hc
  rw [String.data_append] at hc
  rcases List.mem_append.mp hc with h | h
  · exact hs c h
  · exact ht c h

theorem b64encode_noNL (bs : List Nat) : noNL (b64encode bs) := by
  intro c hc
  rcases b64encodeList_mem bs c hc with h | h
  · intro he; rw [he] at h; revert h; decide
  · intro he; rw [he] at h; revert h; decide

theorem digitChar_lt16_ne_newline : ∀ m < 16, Nat.digitChar m ≠ '\n' := by decide

theorem toDigitsCore10_ne_newline :
    ∀ (f n : Nat) (ds : List Char), (∀ c ∈ ds, c ≠ '\n') →
      ∀ c ∈ Nat.toDigitsCore 10 f n ds, c ≠ '\n'
  | 0, n, ds, hds => by simpa [Nat.toDigitsCore] using hds
  | f + 1, n, ds, hds => by
      have hd : ∀ c ∈ (Nat.digitChar (n % 10) :: ds), c ≠ '\n' := by
        intro c hc
        rcases List.mem_cons.mp hc with h | h
        · exact h ▸ digitChar_lt16_ne_newline (n % 10) (by omega)
        · exact hds c h
      intro c hc
      simp only [Nat.toDigitsCore] at hc
      by_cases h0 : n / 10 = 0
      · rw [if_pos h0] at hc
        exact hd c hc
      · rw [if_neg h0] at hc
        exact toDigitsCore10_ne_newline f (n / 10) _ hd c hc

theorem repr_noNL (n : Nat) : noNL (Nat.repr n) := by
  intro c hc
  exact toDigitsCore10_ne_newline (n + 1) n [] (by simp) c hc

theorem padDec_noNL (w n : Nat) : noNL (padDec w n) := by
  unfold padDec
  apply noNL_append _ (repr_noNL n)
  intro c hc
  rcases List.eq_of_mem_replicate hc with rfl
  decide

theorem isoformat_noNL (d : DateTime) : noNL d.isoformat := by
  have hdash : noNL "-" := by decide
  have hcolon : noNL ":" := by decide
  have hT : noNL "T" := by decide
  have hmicro : noNL (if d.microsecond = 0 then "" else "." ++ padDec 6 d.microsecond) := by
    split
    · decide
    · exact noNL_append (by decide) (padDec_noNL 6 d.microsecond)
  unfold DateTime.isoformat
  exact noNL_append (noNL_append (noNL_append (noNL_append (noNL_append (noNL_append
    (noNL_append (noNL_append (noNL_append (noNL_append (noNL_append
    (padDec_noNL 4 d.year) hdash) (padDec_noNL 2 d.month)) hdash) (padDec_noNL 2 d.day)) hT)
    (padDec_noNL 2 d.hour)) hcolon) (padDec_noNL 2 d.minute)) hcolon)
    (padDec_noNL 2 d.second)) hmicro

theorem timestampOf_noNL (d : DateTime) : noNL (timestampOf d) :=
  noNL_append (isoformat_noNL d) (by decide)

theorem charListLe_total : ∀ as bs : List Char, charListLe as bs = true ∨ charListLe bs as = true
  | [], _ => Or.inl rfl
  | _ :: _, [] => Or.inr rfl
  | a :: as, b :: bs => by
      rcases Nat.lt_trichotomy a.toNat b.toNat with h | h | h
      · left; simp [charListLe, h]
      · have hab : ¬ a.toNat < b.toNat := by omega
        have hba : ¬ b.toNat < a.toNat := by omega
        rcases charListLe_total as bs with ih | ih
        · left; simp [charListLe, hab, hba, ih]
        · right; simp [charListLe, hab, hba, ih]
      · right; simp [charListLe, h]

theorem charListLe_trans :
    ∀ as bs cs : List Char, charListLe as bs = true → charListLe bs cs = true →
      charListLe as cs = true
  | [], _, _, _, _ => rfl
  | _ :: _, [], _, h1, _ => by simp [charListLe] at h1
  | _ :: _, _ :: _, [], _, h2 => by simp [charListLe] at h2
  | a :: as, b :: bs, c :: cs, h1, h2 => by
      simp only [charListLe] at h1 h2 ⊢
      by_cases hab : a.toNat < b.toNat
      · by_cases hbc : b.toNat < c.toNat
        · have hac : a.toNat < c.toNat := by omega
          simp [hac]
        · by_cases hcb : c.toNat < b.toNat
          · rw [if_neg hbc, if_pos hcb] at h2
            simp at h2
          · have hac : a.toNat < c.toNat := by omega
            simp [hac]
      · by_cases hba : b.toNat < a.toNat
        · rw [if_neg hab, if_pos hba] at h1
          simp at h1
        · rw [if_neg hab, if_neg hba] at h1
          by_cases hbc : b.toNat < c.toNat
          · have hac : a.toNat < c.toNat := by omega
            simp [hac]
          · by_cases hcb : c.toNat < b.toNat
            · rw [if_neg hbc, if_pos hcb] at h2
              simp at h2
            · rw [if_neg hbc, if_neg hcb] at h2
              have hac : ¬ a.toNat < c.toNat := by omega
              have hca : ¬ c.toNat < a.toNat := by omega
              rw [if_neg hac, if_neg hca]
              exact charListLe_trans as bs cs h1 h2

theorem charListLe_antisymm :
    ∀ as bs : List Char, charListLe as bs = true → charListLe bs as = true → as = bs
  | [], [], _, _ => rfl
  | [], _ :: _, _, h2 => by simp [charListLe] at h2
  | _ :: _, [], h1, _ => by simp [charListLe] at h1
  | a :: as, b :: bs, h1, h2 => by
      simp only [charListLe] at h1 h2
      by_cases hab : a.toNat < b.toNat
      · have hba : ¬ b.toNat < a.toNat := by omega
        rw [if_neg hba, if_pos hab] at h2
        simp at h2
      · by_cases hba : b.toNat < a.toNat
        · rw [if_neg hab, if_pos hba] at h1
          simp at h1
        · rw [if_neg hab, if_neg hba] at h1
          rw [if_neg hba, if_neg hab] at h2
          have htn : a.toNat = b.toNat := by omega
          have heq : a = b := Char.ext (UInt32.toNat.inj htn)
          rw [heq, charListLe_antisymm as bs h1 h2]

instance : IsTotal String strLe := ⟨fun a b => charListLe_total a.data b.data⟩

instance : IsTrans String strLe := ⟨fun a b c => charListLe_trans a.data b.data c.data⟩

instance : IsAntisymm String strLe :=
  ⟨fun a b h1 h2 => String.ext (charListLe_antisymm a.data b.data h1 h2)⟩

theorem sortStrings_perm (l : List String) : List.Perm (sortStrings l) l :=
  List.perm_insertionSort _ l

theorem sortStrings_sorted (l : List String) : (sortStrings l).Pairwise strLe :=
  List.sorted_insertionSort _ l

/-- Sorting two permutations of the same allow-list gives the same list. -/
theorem sortStrings_eq_of_perm {l1 l2 : List String} (h : List.Perm l1 l2) :
    sortStrings l1 = sortStrings l2 :=
  List.eq_of_perm_of_sorted
    ((sortStrings_perm l1).trans (h.trans (sortStrings_perm l2).symm))
    (sortStrings_sorted l1) (sortStrings_sorted l2)

/-- Sorting commutes with filtering. -/
theorem sortStrings_filter (p : String → Bool) (l : List String) :
    sortStrings (l.filter p) = (sortStrings l).filter p :=
  List.eq_of_perm_of_sorted
    ((sortStrings_perm _).trans ((sortStrings_perm l).filter p).symm)
    (sortStrings_sorted _) ((sortStrings_sorted l).filter p)

/-- Pre-filtering to the elements where the optional-valued map succeeds does not
change a `filterMap`. -/
theorem filterMap_filter_isSome {α β : Type} (g : α → Option β) (l : List α) :
    (l.filter (fun a => (g a).isSome)).filterMap g = l.filterMap g := by
  induction l with
  | nil => rfl
  | cons x xs ih =>
      cases hg : g x with
      | none => simp [List.filter_cons, List.filterMap_cons, hg, ih]
      | some b => simp [List.filter_cons, List.filterMap_cons, hg, ih]

/-- Middle-segment cancellation for string concatenation. -/
theorem append_mid_cancel {s t a b : String} (h : s ++ a ++ t = s ++ b ++ t) : a = b := by
  apply String.ext
  have hd := congrArg String.data h
  simp only [String.data_append] at hd
  simp only [List.append_assoc, List.append_cancel_left_eq,
             List.append_cancel_right_eq] at hd
  exact hd

/-- The string-to-sign factors through the per-call SigningContext. -/
theorem strToSignOf_eq_stsOfCtx (a : HMACAuth) (r : Request) (ts : String) :
    strToSignOf a r ts = stsOfCtx (ctxOf a r ts) := by
  unfold strToSignOf stsOfCtx ctxOf
  have hnil : String.intercalate "\n" ([] : List String) = "" := rfl
  cases hreq : a.required_headers with
  | none => simp [hnil]
  | some hs =>
      by_cases he : hs.isEmpty
      · have hs0 : hs = [] := List.isEmpty_iff.mp he
        simp [he, hs0, hnil]
      · simp [he]

theorem lookup_map_set_self_of_any (k v : String) :
    ∀ (hs : List (String × String)), hs.any (fun p => p.1 == k) = true →
      (hs.map (fun p => if p.1 == k then (k, v) else p)).lookup k = some v
  | [], h => by simp at h
  | (k1, v1) :: ps, h => by
      by_cases hp : k1 = k
      · subst hp
        simp [List.map_cons, List.lookup_cons]
      · have hp' : (k1 == k) = false := by simpa using hp
        have hk' : (k == k1) = false := by simpa using Ne.symm hp
        have h' : ps.any (fun p => p.1 == k) = true := by
          simpa [List.any_cons, hp'] using h
        simpa [List.map_cons, hp, hp', List.lookup_cons, hk'] using
          lookup_map_set_self_of_any k v ps h'

theorem lookup_map_set_other (k v k' : String) (hne : k' ≠ k) :
    ∀ (hs : List (String × String)),
      (hs.map (fun p => if p.1 == k then (k, v) else p)).lookup k' = hs.lookup k'
  | [] => rfl
  | (k1, v1) :: ps => by
      by_cases hp : k1 = k
      · subst hp
        have hk1 : (k' == k1) = false := by simpa using hne
        simpa [List.map_cons, List.lookup_cons, hk1] using
          lookup_map_set_other k1 v k' hne ps
      · have hp' : (k1 == k) = false := by simpa using hp
        rcases hkp : (k' == k1) with _ | _
        · simpa [List.map_cons, hp, hp', List.lookup_cons, hkp] using
            lookup_map_set_other k v k' hne ps
        · simp [List.map_cons, hp, hp', List.lookup_cons, hkp]

theorem lookup_append_single_self (k v : String) :
    ∀ (hs : List (String × String)), hs.any (fun p => p.1 == k) = false →
      (hs ++ [(k, v)]).lookup k = some v
  | [], _ => by simp [List.lookup_cons]
  | (k1, v1) :: ps, h => by
      have hp' : (k1 == k) = false := by
        rcases hb : (k1 == k) with _ | _
        · rfl
        · simp [List.any_cons, hb] at h
      have hk' : (k == k1) = false := by
        have hne : ¬ k1 = k := by simpa using hp'
        simpa using Ne.symm hne
      have h' : ps.any (fun p => p.1 == k) = false := by
        simpa [List.any_cons, hp'] using h
      simpa [List.cons_append, List.lookup_cons, hk'] using
        lookup_append_single_self k v ps h'

theorem lookup_append_single_other (k v k' : String) (hne : k' ≠ k) :
    ∀ (hs : List (String × String)), (hs ++ [(k, v)]).lookup k' = hs.lookup k'
  | [] => by
      have hk : (k' == k) = false := by simpa using hne
      simp [List.lookup_cons, hk]
  | (k1, v1) :: ps => by
      rcases hkp : (k' == k1) with _ | _
      · simpa [List.cons_append, List.lookup_cons, hkp] using
          lookup_append_single_other k v k' hne ps
      · simp [List.cons_append, List.lookup_cons, hkp]

/-- After `setHeader`, looking up the set key finds the new value. -/
theorem setHeader_lookup_self (hs : List (String × String)) (k v : String) :
    (setHeader hs k v).lookup k = some v := by
  unfold setHeader
  by_cases hany : hs.any (fun p => p.1 == k) = true
  · rw [if_pos hany]
    exact lookup_map_set_self_of_any k v hs hany
  · rw [if_neg hany]
    exact lookup_append_single_self k v hs (Bool.not_eq_true _ ▸ Bool.of_not_eq_true hany)

/-- `setHeader` leaves every other key's lookup unchanged. -/
theorem setHeader_lookup_other (hs : List (String × String)) (k v k' : String)
    (hne : k' ≠ k) : (setHeader hs k v).lookup k' = hs.lookup k' := by
  unfold setHeader
  split
  · exact lookup_map_set_other k v k' hne hs
  · exact lookup_append_single_other k v k' hne hs

theorem intercalate_nl_nil : String.intercalate "\n" ([] : List String) = "" := rfl

/-- Signing with a constructor-supplied allow-list always appends the
newline-join of the present headers' values (the join over zero values is
empty, collapsing to the bare base string exactly as the falsy-list branch
does). -/
theorem strToSignOf_init_some (api : String) (sk : List Nat) (hs : List String)
    (r : Request) (ts : String) :
    strToSignOf (HMACAuth.init api sk (some hs)) r ts =
      stringToSignFmt r.method r.host r.path_url ts ++
      String.intercalate "\n" ((sortStrings hs).filterMap (fun h => r.headers.lookup h)) := by
  unfold strToSignOf HMACAuth.init
  simp only [Option.map_some']
  by_cases he : (sortStrings hs).isEmpty
  · have h0 : sortStrings hs = [] := List.isEmpty_iff.mp he
    simp [he, h0, intercalate_nl_nil]
  · simp [he]

theorem strToSignOf_init_none (api : String) (sk : List Nat) (r : Request) (ts : String) :
    strToSignOf (HMACAuth.init api sk none) r ts =
      stringToSignFmt r.method r.host r.path_url ts := rfl

/-- C1: for every method, host, path-and-query, timestamp and header
selection, the string-to-sign is the method, host, path-and-query and
timestamp each followed by one newline, then, for a truthy allow-list, the
values of the present allow-listed headers joined with newlines and no
trailing newline; and on the spec's concrete scenario (GET, example.com,
/v1/things?x=1, the fixed timestamp, no headers) it is exactly the quoted
four-line string. -/
theorem claim_C1 (a : HMACAuth) (r : Request) (ts : String) :
    (strToSignOf a r ts =
      r.method ++ "\n" ++ r.host ++ "\n" ++ r.path_url ++ "\n" ++ ts ++ "\n" ++
        (match a.required_headers with
         | none => ""
         | some hs =>
             if hs.isEmpty then ""
             else String.intercalate "\n" (hs.filterMap (fun h => r.headers.lookup h)))) ∧
    strToSignOf (HMACAuth.init "k1" (utf8Bytes "s3cr3t") none)
        ⟨"GET", "example.com", "/v1/things?x=1", "", []⟩
        "2024-01-01T00:00:00.000000-00:00" =
      "GET\nexample.com\n/v1/things?x=1\n2024-01-01T00:00:00.000000-00:00\n" := by
  constructor
  · unfold strToSignOf stringToSignFmt
    cases a.required_headers with
    | none => simp
    | some hs =>
        by_cases he : hs.isEmpty
        · simp [he]
        · simp [he]
  · decide

/-- C2: the produced Authorization value is exactly `APIKey=` + api_key +
`,Signature=` + the padded base64 of the HMAC-SHA256 digest keyed by
secret_key over the UTF-8 bytes of the string-to-sign + `,Timestamp=` + the
same timestamp used inside the string-to-sign; and that digest is 32 bytes
long. -/
theorem claim_C2 (a : HMACAuth) (r : Request) (d : DateTime) :
    authValueOf a r d =
      "APIKey=" ++ a.api_key ++ ",Signature=" ++
        b64encode (hmacSha256 a.secret_key
          (utf8Bytes (strToSignOf a r (timestampOf d)))) ++
        ",Timestamp=" ++ timestampOf d ∧
    (hmacSha256 a.secret_key (utf8Bytes (strToSignOf a r (timestampOf d)))).length = 32 :=
  ⟨rfl, hmacSha256_length _ _⟩

/-- C3: an allow-listed header name absent from the request is silently
skipped: signing with allow-list `hs` produces the same string-to-sign as
signing with only those names of `hs` whose lookup succeeds (the model's
guarded lookup is total, so no error can arise). -/
theorem claim_C3 (api : String) (sk : List Nat) (hs : List String)
    (r : Request) (ts : String) :
    strToSignOf (HMACAuth.init api sk (some hs)) r ts =
      strToSignOf (HMACAuth.init api sk
        (some (hs.filter (fun h => (r.headers.lookup h).isSome)))) r ts := by
  rw [strToSignOf_init_some, strToSignOf_init_some, sortStrings_filter,
      filterMap_filter_isSome]

/-- C4: allow-lists that are permutations of each other give the same
constructed signer, hence identical strings-to-sign, signatures and signed
requests; and on the spec's concrete example the appended header segment is
exactly `v2` newline `v1`. -/
theorem claim_C4 (api : String) (sk : List Nat) (l1 l2 : List String)
    (r : Request) (d : DateTime) (ts : String) (hperm : List.Perm l1 l2) :
    (HMACAuth.init api sk (some l1) = HMACAuth.init api sk (some l2) ∧
     strToSignOf (HMACAuth.init api sk (some l1)) r ts =
       strToSignOf (HMACAuth.init api sk (some l2)) r ts ∧
     signatureOf (HMACAuth.init api sk (some l1)) r ts =
       signatureOf (HMACAuth.init api sk (some l2)) r ts ∧
     HMACAuth.call (HMACAuth.init api sk (some l1)) r d =
       HMACAuth.call (HMACAuth.init api sk (some l2)) r d) ∧
    strToSignOf (HMACAuth.init "k" [] (some ["X-Foo", "X-Bar"]))
        ⟨"GET", "example.com", "/v1/things?x=1", "", [("X-Foo", "v1"), ("X-Bar", "v2")]⟩
        "T" =
      stringToSignFmt "GET" "example.com" "/v1/things?x=1" "T" ++ "v2\nv1" := by
  have hinit : HMACAuth.init api sk (some l1) = HMACAuth.init api sk (some l2) := by
    unfold HMACAuth.init
    rw [Option.map_some', Option.map_some', sortStrings_eq_of_perm hperm]
  exact ⟨⟨hinit, by rw [hinit], by rw [hinit], by rw [hinit]⟩, by decide⟩

/-- Modelled from the spec: the timestamp format the spec claims, an
ISO-8601 rendering in which the microsecond field is always present
(`YYYY-MM-DDTHH:MM:SS.mmmmmm`) followed by the literal suffix `-00:00`. -/
def specTimestamp (d : DateTime) : String :=
  padDec 4 d.year ++ "-" ++ padDec 2 d.month ++ "-" ++ padDec 2 d.day ++ "T" ++
  padDec 2 d.hour ++ ":" ++ padDec 2 d.minute ++ ":" ++ padDec 2 d.second ++
  "." ++ padDec 6 d.microsecond ++ "-00:00"

/-- C5 counterexample: at an instant whose microsecond component is zero,
Python's `isoformat` omits the fractional part, so the generated timestamp
is second-precision, not the claimed always-microsecond-precision
rendering. -/
theorem claim_C5_counterexample :
    timestampOf ⟨2024, 1, 1, 0, 0, 0, 0⟩ = "2024-01-01T00:00:00-00:00" ∧
    timestampOf ⟨2024, 1, 1, 0, 0, 0, 0⟩ ≠ specTimestamp ⟨2024, 1, 1, 0, 0, 0, 0⟩ :=
  ⟨by decide, by decide⟩

/-- C5 (amended): the generated timestamp is `isoformat` of the current UTC
instant followed by the literal fixed suffix `-00:00`, and it has the
claimed microsecond-precision form exactly when the instant's microsecond
component is nonzero. -/
theorem claim_C5 (d : DateTime) (h : d.microsecond ≠ 0) :
    timestampOf d = specTimestamp d := by
  unfold timestampOf DateTime.isoformat specTimestamp
  rw [if_neg h]
  simp [String.append_assoc]

theorem claim_C5_witness :
    (⟨2024, 1, 1, 0, 0, 0, 123456⟩ : DateTime).microsecond ≠ 0 ∧
    timestampOf ⟨2024, 1, 1, 0, 0, 0, 123456⟩ =
      specTimestamp ⟨2024, 1, 1, 0, 0, 0, 123456⟩ :=
  ⟨by decide, claim_C5 ⟨2024, 1, 1, 0, 0, 0, 123456⟩ (by decide)⟩

/-- C6: the string-to-sign (and with equal secret keys the signature) is a
pure function of the SigningContext — any signer, request and timestamp
giving rise to the same context produce the same string-to-sign and the
same signature. -/
theorem claim_C6 (a1 a2 : HMACAuth) (r1 r2 : Request) (ts1 ts2 : String)
    (hctx : ctxOf a1 r1 ts1 = ctxOf a2 r2 ts2) :
    strToSignOf a1 r1 ts1 = strToSignOf a2 r2 ts2 ∧
    (a1.secret_key = a2.secret_key →
      signatureOf a1 r1 ts1 = signatureOf a2 r2 ts2) := by
  have hs : strToSignOf a1 r1 ts1 = strToSignOf a2 r2 ts2 := by
    rw [strToSignOf_eq_stsOfCtx, strToSignOf_eq_stsOfCtx, hctx]
  refine ⟨hs, fun hk => ?_⟩
  unfold signatureOf
  rw [hs, hk]

theorem claim_C6_witness :
    ctxOf (HMACAuth.init "k" [0] none) ⟨"GET", "h", "/p", "", []⟩ "T" =
      ctxOf (HMACAuth.init "k" [0] (some ["X-Gone"])) ⟨"GET", "h", "/p", "", []⟩ "T" ∧
    strToSignOf (HMACAuth.init "k" [0] none) ⟨"GET", "h", "/p", "", []⟩ "T" =
      strToSignOf (HMACAuth.init "k" [0] (some ["X-Gone"])) ⟨"GET", "h", "/p", "", []⟩ "T" :=
  ⟨by decide, (claim_C6 _ _ _ _ _ _ (by decide)).1⟩

/-- C7: two signing contexts with equal selected header values that agree on
three of the four fields method, host, path-and-query, timestamp but differ
in the remaining one always yield different strings-to-sign. -/
theorem claim_C7 (c1 c2 : SigningContext)
    (hvals : c1.selected_header_values = c2.selected_header_values)
    (hdiff :
      (c1.method ≠ c2.method ∧ c1.host = c2.host ∧
        c1.path_and_query = c2.path_and_query ∧ c1.timestamp = c2.timestamp) ∨
      (c1.method = c2.method ∧ c1.host ≠ c2.host ∧
        c1.path_and_query = c2.path_and_query ∧ c1.timestamp = c2.timestamp) ∨
      (c1.method = c2.method ∧ c1.host = c2.host ∧
        c1.path_and_query ≠ c2.path_and_query ∧ c1.timestamp = c2.timestamp) ∨
      (c1.method = c2.method ∧ c1.host = c2.host ∧
        c1.path_and_query = c2.path_and_query ∧ c1.timestamp ≠ c2.timestamp)) :
    stsOfCtx c1 ≠ stsOfCtx c2 := by
  intro heq
  have hd := congrArg String.data heq
  unfold stsOfCtx stringToSignFmt at hd
  rcases hdiff with ⟨hne, h2, h3, h4⟩ | ⟨h1, hne, h3, h4⟩ |
    ⟨h1, h2, hne, h4⟩ | ⟨h1, h2, h3, hne⟩
  · rw [h2, h3, h4, hvals] at hd
    simp only [String.data_append, List.append_assoc, List.append_cancel_left_eq,
               List.append_cancel_right_eq] at hd
    exact hne (String.ext hd)
  · rw [h1, h3, h4, hvals] at hd
    simp only [String.data_append, List.append_assoc, List.append_cancel_left_eq,
               List.append_cancel_right_eq] at hd
    exact hne (String.ext hd)
  · rw [h1, h2, h4, hvals] at hd
    simp only [String.data_append, List.append_assoc, List.append_cancel_left_eq,
               List.append_cancel_right_eq] at hd
    exact hne (String.ext hd)
  · rw [h1, h2, h3, hvals] at hd
    simp only [String.data_append, List.append_assoc, List.append_cancel_left_eq,
               List.append_cancel_right_eq] at hd
    exact hne (String.ext hd)

theorem claim_C7_witness :
    (⟨"GET", "h", "/p", "T", []⟩ : SigningContext).selected_header_values =
      (⟨"POST", "h", "/p", "T", []⟩ : SigningContext).selected_header_values ∧
    stsOfCtx ⟨"GET", "h", "/p", "T", []⟩ ≠ stsOfCtx ⟨"POST", "h", "/p", "T", []⟩ :=
  ⟨rfl, claim_C7 _ _ rfl (Or.inl ⟨by decide, rfl, rfl, rfl⟩)⟩

/-- C8: the sign operation returns the request with its `Authorization`
header set to the computed value (overwriting any prior value) and changes
nothing else: method, host, path-and-query, body and every other header's
lookup are unchanged. -/
theorem claim_C8 (a : HMACAuth) (r : Request) (d : DateTime) :
    (HMACAuth.call a r d).method = r.method ∧
    (HMACAuth.call a r d).host = r.host ∧
    (HMACAuth.call a r d).path_url = r.path_url ∧
    (HMACAuth.call a r d).body = r.body ∧
    (HMACAuth.call a r d).headers.lookup "Authorization" = some (authValueOf a r d) ∧
    (∀ k : String, k ≠ "Authorization" →
      (HMACAuth.call a r d).headers.lookup k = r.headers.lookup k) :=
  ⟨rfl, rfl, rfl, rfl, setHeader_lookup_self _ _ _,
   fun k hk => setHeader_lookup_other _ _ _ k hk⟩

theorem claim_C8_witness :
    (HMACAuth.call (HMACAuth.init "k1" [7] none)
        ⟨"GET", "h", "/p", "b", [("X-Foo", "v")]⟩
        ⟨2024, 1, 1, 0, 0, 0, 1⟩).headers.lookup "X-Foo" =
      (⟨"GET", "h", "/p", "b", [("X-Foo", "v")]⟩ : Request).headers.lookup "X-Foo" :=
  (claim_C8 (HMACAuth.init "k1" [7] none) ⟨"GET", "h", "/p", "b", [("X-Foo", "v")]⟩
    ⟨2024, 1, 1, 0, 0, 0, 1⟩).2.2.2.2.2 "X-Foo" (by decide)

/-- A newline inside the api_key component survives into the assembled
header value. -/
theorem noNL_authHeaderFmt_api {api sig ts : String}
    (h : noNL (authHeaderFmt api sig ts)) : noNL api := by
  intro c hc
  apply h c
  unfold authHeaderFmt
  simp only [String.data_append, List.mem_append]
  left; left; left; left; right
  exact hc

/-- C9 counterexample: an api_key containing a newline puts a newline into
the produced Authorization value, so the claim does not hold for every
api_key. -/
theorem claim_C9_counterexample :
    ¬ noNL (authValueOf (HMACAuth.init "a\nb" [] none) ⟨"GET", "h", "/p", "", []⟩
        ⟨2024, 1, 1, 0, 0, 0, 0⟩) := by
  intro h
  have h2 : noNL ((HMACAuth.init "a\nb" [] none).api_key) := noNL_authHeaderFmt_api h
  exact absurd h2 (by decide)

/-- C9 (amended): whenever the api_key itself contains no newline, the
produced Authorization value contains no newline — the literal field names,
the base64 signature and the generated timestamp never contribute one. -/
theorem claim_C9 (a : HMACAuth) (r : Request) (d : DateTime) (h : noNL a.api_key) :
    noNL (authValueOf a r d) := by
  unfold authValueOf authHeaderFmt
  exact noNL_append (noNL_append (noNL_append (noNL_append
    (noNL_append (by decide) h) (by decide)) (b64encode_noNL _)) (by decide))
    (timestampOf_noNL d)

theorem claim_C9_witness :
    noNL ((HMACAuth.init "k1" [] none).api_key) ∧
    noNL (authValueOf (HMACAuth.init "k1" [] none) ⟨"GET", "h", "/p", "", []⟩
      ⟨2024, 1, 1, 0, 0, 0, 0⟩) :=
  ⟨by decide, claim_C9 (HMACAuth.init "k1" [] none) ⟨"GET", "h", "/p", "", []⟩
    ⟨2024, 1, 1, 0, 0, 0, 0⟩ (by decide)⟩

/-- C10: with an allow-list none of whose names is present among the
request's headers, the string-to-sign collapses to the bare four-line base
string, and the signed request is identical to the one produced by a signer
constructed with no allow-list at all. -/
theorem claim_C10 (api : String) (sk : List Nat) (hs : List String)
    (r : Request) (d : DateTime) (ts : String)
    (habs : hs.all (fun h => (r.headers.lookup h).isNone) = true) :
    strToSignOf (HMACAuth.init api sk (some hs)) r ts =
      stringToSignFmt r.method r.host r.path_url ts ∧
    HMACAuth.call (HMACAuth.init api sk (some hs)) r d =
      HMACAuth.call (HMACAuth.init api sk none) r d := by
  have hnil : ∀ ts' : String,
      strToSignOf (HMACAuth.init api sk (some hs)) r ts' =
        stringToSignFmt r.method r.host r.path_url ts' := by
    intro ts'
    rw [strToSignOf_init_some]
    have hfm : (sortStrings hs).filterMap (fun h => r.headers.lookup h) = [] := by
      rw [List.filterMap_eq_nil_iff]
      intro h hm
      have hin : h ∈ hs := (sortStrings_perm hs).mem_iff.mp hm
      have hnone := List.all_eq_true.mp habs h hin
      exact Option.isNone_iff_eq_none.mp hnone
    rw [hfm, intercalate_nl_nil, String.append_empty]
  have hsts : strToSignOf (HMACAuth.init api sk (some hs)) r (timestampOf d) =
      strToSignOf (HMACAuth.init api sk none) r (timestampOf d) :=
    (hnil _).trans (strToSignOf_init_none api sk r (timestampOf d)).symm
  have hval : authValueOf (HMACAuth.init api sk (some hs)) r d =
      authValueOf (HMACAuth.init api sk none) r d := by
    unfold authValueOf signatureOf
    rw [hsts]
    rfl
  refine ⟨hnil ts, ?_⟩
  unfold HMACAuth.call
  rw [hval]

theorem claim_C10_witness :
    (["X-Gone"].all
      (fun h => ((⟨"GET", "h", "/p", "", [("A", "b")]⟩ : Request).headers.lookup h).isNone)
        = true) ∧
    strToSignOf (HMACAuth.init "k" [] (some ["X-Gone"]))
        ⟨"GET", "h", "/p", "", [("A", "b")]⟩ "T" =
      stringToSignFmt "GET" "h" "/p" "T" :=
  ⟨by decide, (claim_C10 "k" [] ["X-Gone"] ⟨"GET", "h", "/p", "", [("A", "b")]⟩
    ⟨2024, 1, 1, 0, 0, 0, 0⟩ "T" (by decide)).1⟩

theorem claim_C4_witness :
    List.Perm ["B", "A"] ["A", "B"] ∧
    HMACAuth.call (HMACAuth.init "k1" [1, 2] (some ["B", "A"]))
        ⟨"GET", "h", "/p", "", []⟩ ⟨2024, 1, 1, 0, 0, 0, 1⟩ =
      HMACAuth.call (HMACAuth.init "k1" [1, 2] (some ["A", "B"]))
        ⟨"GET", "h", "/p", "", []⟩ ⟨2024, 1, 1, 0, 0, 0, 1⟩ :=
  ⟨by decide, (claim_C4 "k1" [1, 2] ["B", "A"] ["A", "B"] ⟨"GET", "h", "/p", "", []⟩
    ⟨2024, 1, 1, 0, 0, 0, 1⟩ "T" (by decide)).1.2.2.2⟩
